import Mathlib

/-!
Verification of the `new_buffer` growable-array implementations
(`src/new_buffer.h`) against their natural-language specification.

The four storage variants are shallowly embedded as follows.  Element
storage is modelled as a list of slots, one per slot of the active storage
block, where `some v` is a live constructed element holding `v` and `none`
is raw uninitialized memory.  The `m_size` / `m_capacity` fields are kept
as separate natural-number fields, exactly as in the source, so that
states in which the fields disagree with the actual constructed elements
(which the source can produce) are representable.

All sizes are `Nat`: the size type `SZ` is an unsigned integer and every
capacity appearing in the claims is far below any overflow boundary.
-/

namespace NewBuffer

/-- Growth policy of the inline variant, from
`new_buffer<T,SZ,INITIAL_SIZE>::next_capacity` (new_buffer.h:131-137):
`cap == 0 ? 2 : (3 * cap + 1) / 2`. -/
def nextCapacityInline (cap : Nat) : Nat :=
  if cap = 0 then 2 else (3 * cap + 1) / 2

/-- Growth policy of the heap-header variant, from
`new_buffer<T,SZ,0>::next_capacity` (new_buffer.h:509-512). -/
def nextCapacityHeader (cap : Nat) : Nat :=
  if cap = 0 then 2 else (3 * cap + 1) / 2

/-- Growth policy of the split-fields variant, from
`new_buffer<T,SZ,-1>::next_capacity` (new_buffer.h:886-889). -/
def nextCapacitySplit (cap : Nat) : Nat :=
  if cap = 0 then 2 else (3 * cap + 1) / 2

/-- Growth policy of the allocator-aware split variant, from
`new_buffer<T,SZ,-2>::next_capacity` (new_buffer.h:1241-1244). -/
def nextCapacitySplitActual (cap : Nat) : Nat :=
  if cap = 0 then 2 else (3 * cap + 1) / 2

/-- Modelled from the spec: the growth policy as the spec states it in
section 4.2: `current == 0 -> 2`; else `floor((3*current + 1) / 2)`.
Used only to compare the source functions against the spec wording. -/
def nextCapacitySpec (current : Nat) : Nat :=
  if current = 0 then 2 else (3 * current + 1) / 2

/-! ### Shared slot-level helpers

`destroySlots store i n` invokes the destructor on the `n` slots starting
at index `i` (the `new_buffer_detail::destroy(ptr + i, ptr + i + n)` loop);
`constructSlots store i n v` placement-constructs value `v` into the `n`
slots starting at index `i` (the `for(...) ::new(ptr + i) value_type(value)`
loops of `resize`). -/

def destroySlots {α : Type} : List (Option α) → Nat → Nat → List (Option α)
  | store, _, 0 => store
  | store, i, n + 1 => destroySlots (store.set i none) (i + 1) n

def constructSlots {α : Type} : List (Option α) → Nat → Nat → α → List (Option α)
  | store, _, 0, _ => store
  | store, i, n + 1, v => constructSlots (store.set i (some v)) (i + 1) n v

/-- Forward-moving overlapping shift from `new_buffer_detail::move_around`
(new_buffer.h:58-62, the `destination < source` branch): for each
`i < count`, move-construct `source[i]` into `destination[i]` and destroy
`source[i]`.  Here `destination = dst` and `source = dst + 1`, which is
the only way the buffer code calls it (closing the gap after `erase`). -/
def moveDown {α : Type} : List (Option α) → Nat → Nat → List (Option α)
  | store, _, 0 => store
  | store, dst, n + 1 =>
      moveDown ((store.set dst (store.getD (dst + 1) none)).set (dst + 1) none) (dst + 1) n

/-! ### V-inline(N): `new_buffer<T, SZ, INITIAL_SIZE>` (INITIAL_SIZE > 0)

`onHeap` models `m_data != &m_initial_buffer`; `store` is the contents of
the active storage block (the inline slots while `onHeap = false`, the
heap block while `onHeap = true`). -/

structure InlineBuf (α : Type) where
  onHeap : Bool
  msize : Nat
  mcapacity : Nat
  store : List (Option α)
deriving Repr, DecidableEq

/-- Default construction (new_buffer.h:173 with the member initializers at
new_buffer.h:123-126): inline storage, size 0, capacity `N`, all `N`
inline slots raw. -/
def emptyInline (α : Type) (N : Nat) : InlineBuf α :=
  ⟨false, 0, N, List.replicate N none⟩

/-- Live element sequence of the buffer: the values of the slots in
`[0, m_size)` of the active storage, in slot order (the iteration order
`begin() .. end()`). -/
def InlineBuf.contents {α : Type} (b : InlineBuf α) : List α :=
  (b.store.take b.msize).filterMap id

/-- Reallocation of the inline variant
(`new_buffer<T,SZ,INITIAL_SIZE>::reallocate`, new_buffer.h:139-170):
obtain a heap block of `newCap` slots, move the first `m_size` slots of
the old storage into it (the remaining slots of the new block are raw),
release the old storage, set `m_capacity = newCap`.  Both the trivial
(memcpy/realloc) and the non-trivial (move + destroy) specialization have
this effect on the live slots. -/
def InlineBuf.reallocate {α : Type} (b : InlineBuf α) (newCap : Nat) : InlineBuf α :=
  ⟨true, b.msize, newCap, b.store.take b.msize ++ List.replicate (newCap - b.msize) none⟩

/-- Push-back of the inline variant
(`new_buffer<T,SZ,INITIAL_SIZE>::push_back`, new_buffer.h:407-414):
if `size >= capacity`, reallocate to `next_capacity()`; then
placement-construct the value at slot `size` and increment `m_size`. -/
def InlineBuf.pushBack {α : Type} (b : InlineBuf α) (v : α) : InlineBuf α :=
  let b1 := if b.msize ≥ b.mcapacity then b.reallocate (nextCapacityInline b.mcapacity) else b
  ⟨b1.onHeap, b1.msize + 1, b1.mcapacity, b1.store.set b1.msize (some v)⟩

/-- Clear of the inline variant (new_buffer.h:314-317): destroy the slots
in `[0, m_size)`, set `m_size = 0`; capacity and storage block unchanged. -/
def InlineBuf.clear {α : Type} (b : InlineBuf α) : InlineBuf α :=
  ⟨b.onHeap, 0, b.mcapacity, destroySlots b.store 0 b.msize⟩

/-- Pop-back of the inline variant (new_buffer.h:435-439): the source runs
`end()->~value_type(); --m_size;`, i.e. it invokes the destructor on the
slot at index `size()` (one past the last live element) and decrements
`m_size`. -/
def InlineBuf.popBack {α : Type} (b : InlineBuf α) : InlineBuf α :=
  ⟨b.onHeap, b.msize - 1, b.mcapacity, b.store.set b.msize none⟩

/-- Slot index on which `pop_back` of the inline variant invokes the
destructor: `end()` is `ptr() + size()` (new_buffer.h:374), so the index
is `m_size`. -/
def InlineBuf.popBackDestroyIndex {α : Type} (b : InlineBuf α) : Nat :=
  b.msize

/-- Reserve of the inline variant (new_buffer.h:341-345): reallocate to
exactly `new_capacity` when the current capacity is smaller, otherwise do
nothing. -/
def InlineBuf.reserveOp {α : Type} (b : InlineBuf α) (newCapacity : Nat) : InlineBuf α :=
  if b.mcapacity < newCapacity then b.reallocate newCapacity else b

/-- Shrink-to-fit of the inline variant (new_buffer.h:347-359), for inline
size `N`: if `m_size <= N` and the storage is on the heap, move the live
elements back into the `N` inline slots and free the heap block — the
source does not touch `m_capacity` here; otherwise reallocate to `m_size`
when `size() < capacity()`. -/
def InlineBuf.shrinkToFit {α : Type} (N : Nat) (b : InlineBuf α) : InlineBuf α :=
  if b.msize ≤ N then
    if b.onHeap then
      ⟨false, b.msize, b.mcapacity, b.store.take b.msize ++ List.replicate (N - b.msize) none⟩
    else b
  else
    if b.msize < b.mcapacity then b.reallocate b.msize else b

/-- Move construction of the inline variant (new_buffer.h:199-215), for
inline size `N`; returns `(destination, source-after-move)`.
Heap source: the destination steals `m_data`/`m_size`/`m_capacity`; the
source is pointed back at its inline slots (all raw) and then executes
`other.m_size = 0; other.m_size = initial_size;` — two consecutive stores
to `m_size`, leaving `m_size = N`; `m_capacity` is not assigned at all.
Inline source: the destination element-wise moves the `m_size` live slots
into its own inline storage; the source elements are destroyed and the
source `m_size` set to 0 (`m_capacity` again untouched). -/
def InlineBuf.moveCtorFrom {α : Type} (N : Nat) (other : InlineBuf α) :
    InlineBuf α × InlineBuf α :=
  if other.onHeap then
    (⟨true, other.msize, other.mcapacity, other.store⟩,
     ⟨false, N, other.mcapacity, List.replicate N none⟩)
  else
    (⟨false, other.msize, N,
       other.store.take other.msize ++ List.replicate (N - other.msize) none⟩,
     ⟨false, 0, other.mcapacity, destroySlots other.store 0 other.msize⟩)

/-- Friend `swap` of the inline variant (new_buffer.h:265-307), for inline
size `N`; returns the pair `(lhs, rhs)` after the call.
Both on heap: exchange `m_data`, `m_size`, `m_capacity`.
`lhs` heap / `rhs` inline: move `rhs`'s elements into `lhs`'s inline
slots, destroy the originals, hand `lhs`'s heap block to `rhs`; the
source then executes the self-assignment `rhs.m_capacity = rhs.m_capacity;`
and sets `lhs.m_capacity = initial_size` — the sizes are never exchanged
in this branch.  The mirrored branch behaves symmetrically (with the
self-assignment `lhs.m_capacity = lhs.m_capacity;`).
Both inline: `rhs.m_capacity = rhs.next_capacity()`, allocate a heap block
of that many slots, move `lhs`'s elements into it, move `rhs`'s elements
into `lhs`'s inline slots, give the heap block to `rhs`, swap the sizes. -/
def InlineBuf.swapBufs {α : Type} (N : Nat) (lhs rhs : InlineBuf α) :
    InlineBuf α × InlineBuf α :=
  if lhs.onHeap then
    if rhs.onHeap then
      (⟨true, rhs.msize, rhs.mcapacity, rhs.store⟩,
       ⟨true, lhs.msize, lhs.mcapacity, lhs.store⟩)
    else
      (⟨false, lhs.msize, N,
         rhs.store.take rhs.msize ++ List.replicate (N - rhs.msize) none⟩,
       ⟨true, rhs.msize, rhs.mcapacity, lhs.store⟩)
  else
    if rhs.onHeap then
      (⟨true, lhs.msize, lhs.mcapacity, rhs.store⟩,
       ⟨false, rhs.msize, N,
         lhs.store.take lhs.msize ++ List.replicate (N - lhs.msize) none⟩)
    else
      (⟨false, rhs.msize, lhs.mcapacity,
         rhs.store.take rhs.msize ++ List.replicate (N - rhs.msize) none⟩,
       ⟨true, lhs.msize, nextCapacityInline rhs.mcapacity,
         lhs.store.take lhs.msize ++
           List.replicate (nextCapacityInline rhs.mcapacity - lhs.msize) none⟩)

/-- Copy assignment of the inline variant (new_buffer.h:188-196).
`aliased` models the pointer comparison `this == &other`: when it holds,
the entire body is skipped; otherwise `clear()`, `reserve(other.m_size)`,
`m_size = other.m_size`, `copy_into(m_data, other.m_data, m_size)`. -/
def InlineBuf.copyAssign {α : Type} (dst src : InlineBuf α) (aliased : Bool) : InlineBuf α :=
  if aliased then dst
  else
    let d1 := dst.clear
    let d2 := d1.reserveOp src.msize
    ⟨d2.onHeap, src.msize, d2.mcapacity,
      src.store.take src.msize ++ d2.store.drop src.msize⟩

/-! ### V-split: `new_buffer<T, SZ, -1>`

Pointer, size and capacity as three independent fields
(new_buffer.h:855-1207).  `store` is the heap block (`[]` while
`m_data == nullptr`, which the source maintains iff `m_capacity == 0`). -/

structure SplitBuf (α : Type) where
  msize : Nat
  mcapacity : Nat
  store : List (Option α)
deriving Repr, DecidableEq

/-- Default construction of the split variant (new_buffer.h:878-880, 923):
null pointer, size 0, capacity 0. -/
def emptySplit (α : Type) : SplitBuf α :=
  ⟨0, 0, []⟩

/-- Live element sequence of a split buffer: values of slots `[0, m_size)`
in iteration order. -/
def SplitBuf.contents {α : Type} (b : SplitBuf α) : List α :=
  (b.store.take b.msize).filterMap id

/-- Reallocation of the split variant (`new_buffer<T,SZ,-1>::reallocate`,
new_buffer.h:891-920): obtain a heap block of `newCap` slots holding the
moved first `m_size` slots of the old block, free the old block, set
`m_capacity = newCap`.  The `realloc` path of the trivially-copyable
specialization and the allocate/move/destroy path agree on this effect. -/
def SplitBuf.reallocate {α : Type} (b : SplitBuf α) (newCap : Nat) : SplitBuf α :=
  ⟨b.msize, newCap, b.store.take b.msize ++ List.replicate (newCap - b.msize) none⟩

/-- Push-back of the split variant (new_buffer.h:1085-1091). -/
def SplitBuf.pushBack {α : Type} (b : SplitBuf α) (v : α) : SplitBuf α :=
  let b1 := if b.msize ≥ b.mcapacity then b.reallocate (nextCapacitySplit b.mcapacity) else b
  ⟨b1.msize + 1, b1.mcapacity, b1.store.set b1.msize (some v)⟩

/-- Element-copying constructor `new_buffer(size_type count, const_pointer
elements)` of the split variant (new_buffer.h:979-985): for `count > 0`,
reallocate to exactly `count` and copy the `count` source elements in;
for `count = 0` the buffer stays default-constructed (which the formula
below also yields). -/
def SplitBuf.fromElems {α : Type} (l : List α) : SplitBuf α :=
  ⟨l.length, l.length, l.map some⟩

/-- Clear of the split variant (new_buffer.h:992-995): destroy slots
`[0, m_size)` and set `m_size = 0`. -/
def SplitBuf.clear {α : Type} (b : SplitBuf α) : SplitBuf α :=
  ⟨0, b.mcapacity, destroySlots b.store 0 b.msize⟩

/-- Pop-back of the split variant (new_buffer.h:1110-1114): the source
runs `end()->~value_type(); --m_size;`, invoking the destructor on the
slot at index `size()`. -/
def SplitBuf.popBack {α : Type} (b : SplitBuf α) : SplitBuf α :=
  ⟨b.msize - 1, b.mcapacity, b.store.set b.msize none⟩

/-- Slot index on which `pop_back` of the split variant invokes the
destructor: `end() = ptr() + size()` (new_buffer.h:1052). -/
def SplitBuf.popBackDestroyIndex {α : Type} (b : SplitBuf α) : Nat :=
  b.msize

/-- Private `_reserve` of the split variant (new_buffer.h:1017-1021):
reallocate to exactly `newCapacity` when it exceeds the current capacity. -/
def SplitBuf.reserveCap {α : Type} (b : SplitBuf α) (newCapacity : Nat) : SplitBuf α :=
  if newCapacity > b.mcapacity then b.reallocate newCapacity else b

/-- Default-constructing `resize(count)` of the split variant
(new_buffer.h:997-1004): `_reserve(count)`, destroy the slots in
`[count, size)`, default-construct the slots in `[size, count)`, set
`m_size = count`.  The element default constructor is modelled by the
`Inhabited` instance. -/
def SplitBuf.resizeDefault {α : Type} [Inhabited α] (b : SplitBuf α) (count : Nat) :
    SplitBuf α :=
  let b1 := b.reserveCap count
  let st1 := destroySlots b1.store count (b1.msize - count)
  let st2 := constructSlots st1 b1.msize (count - b1.msize) default
  ⟨count, b1.mcapacity, st2⟩

/-- Public `reserve(count)` of the split variant (new_buffer.h:1196-1200):
`if(count > size()) resize(count);` — an enlarge-only *resize*, as the
comment at new_buffer.h:1015 states. -/
def SplitBuf.reserveOp {α : Type} [Inhabited α] (b : SplitBuf α) (count : Nat) : SplitBuf α :=
  if count > b.msize then b.resizeDefault count else b

/-- Copy assignment of the split variant (new_buffer.h:934-945), with
`aliased` modelling `this == &other`: when aliased the body is skipped;
otherwise `clear()`, then if `other.m_size > 0` reallocate to exactly that
size, copy the elements in and set `m_size`. -/
def SplitBuf.copyAssign {α : Type} (dst src : SplitBuf α) (aliased : Bool) : SplitBuf α :=
  if aliased then dst
  else
    let d1 := dst.clear
    if src.msize > 0 then
      let d2 := d1.reallocate src.msize
      ⟨src.msize, d2.mcapacity, src.store.take src.msize ++ d2.store.drop src.msize⟩
    else d1

/-- Positional erase of the split variant (new_buffer.h:1116-1123):
destroy the slot at `index`, close the gap with
`move_around(ptr + index, ptr + index + 1, size - index - 1)`, decrement
`m_size`; the call returns `ptr() + index`. -/
def SplitBuf.eraseAt {α : Type} (b : SplitBuf α) (index : Nat) : SplitBuf α :=
  let st1 := b.store.set index none
  let st2 := moveDown st1 index (b.msize - index - 1)
  ⟨b.msize - 1, b.mcapacity, st2⟩

/-- Linear search of `std::find(begin(), end(), element)` as used by
value-erase (new_buffer.h:1125-1131): the first position in the iteration
sequence whose element equals `v`, as an offset from `begin()`; `none`
when the search reaches `end()`. -/
def findFirstAux {α : Type} [DecidableEq α] (v : α) : List α → Nat → Option Nat
  | [], _ => none
  | x :: xs, i => if x = v then some i else findFirstAux v xs (i + 1)

/-- Value erase of the split variant (new_buffer.h:1125-1131): linear
search for the first element equal to `v`; erase it positionally when
found (returning that position), otherwise return `end()` — modelled as
the offset `size()` — leaving the buffer untouched. -/
def SplitBuf.eraseVal {α : Type} [DecidableEq α] (b : SplitBuf α) (v : α) :
    SplitBuf α × Nat :=
  match findFirstAux v b.contents 0 with
  | some i => (b.eraseAt i, i)
  | none => (b, b.msize)

/-! ### V-header: `new_buffer<T, SZ, 0>`

The object is a single pointer; size and capacity live in a header that
prefixes the element data in the same allocation (new_buffer.h:465-852).
`alloc = none` models `m_data == nullptr`; otherwise
`alloc = some (m_size, m_capacity, slots)`. -/

structure HeaderBuf (α : Type) where
  alloc : Option (Nat × Nat × List (Option α))
deriving Repr, DecidableEq

/-- Default construction of the header variant (new_buffer.h:493, 557):
null data pointer. -/
def emptyHeader (α : Type) : HeaderBuf α :=
  ⟨none⟩

/-- Size accessor of the header variant (new_buffer.h:614):
`m_data ? header()->m_size : 0`. -/
def HeaderBuf.size {α : Type} (b : HeaderBuf α) : Nat :=
  match b.alloc with
  | none => 0
  | some (s, _, _) => s

/-- Capacity accessor of the header variant (new_buffer.h:615):
`m_data ? header()->m_capacity : 0`. -/
def HeaderBuf.capacity {α : Type} (b : HeaderBuf α) : Nat :=
  match b.alloc with
  | none => 0
  | some (_, c, _) => c

/-- Live element sequence of a header buffer. -/
def HeaderBuf.contents {α : Type} (b : HeaderBuf α) : List α :=
  match b.alloc with
  | none => []
  | some (s, _, st) => (st.take s).filterMap id

/-- Reallocation of the header variant (new_buffer.h:514-554): allocate
`header + newCap` slots; from a null pointer the new header gets size 0,
otherwise the `m_size` live slots are carried over (realloc for trivial
types, allocate/move/destroy otherwise) and the old size is kept; the new
header capacity is `newCap`. -/
def HeaderBuf.reallocate {α : Type} (b : HeaderBuf α) (newCap : Nat) : HeaderBuf α :=
  match b.alloc with
  | none => ⟨some (0, newCap, List.replicate newCap none)⟩
  | some (s, _, st) =>
      ⟨some (s, newCap, st.take s ++ List.replicate (newCap - s) none)⟩

/-- Clear of the header variant (new_buffer.h:617-622): when the pointer
is non-null, destroy slots `[0, m_size)` and write 0 into the header size;
the allocation is kept.  A null buffer is untouched. -/
def HeaderBuf.clear {α : Type} (b : HeaderBuf α) : HeaderBuf α :=
  match b.alloc with
  | none => b
  | some (s, c, st) => ⟨some (0, c, destroySlots st 0 s)⟩

/-- Pop-back of the header variant (new_buffer.h:749-753):
`end()->~value_type(); --header()->m_size;` — the destructor is invoked on
the slot at index `size()`.  (On a null buffer the source would
dereference a null header; the claim only concerns non-empty buffers.) -/
def HeaderBuf.popBack {α : Type} (b : HeaderBuf α) : HeaderBuf α :=
  match b.alloc with
  | none => b
  | some (s, c, st) => ⟨some (s - 1, c, st.set s none)⟩

/-- Slot index on which `pop_back` of the header variant invokes the
destructor: `end() = ptr() + size()` (new_buffer.h:688). -/
def HeaderBuf.popBackDestroyIndex {α : Type} (b : HeaderBuf α) : Nat :=
  b.size

/-- Private `_reserve` of the header variant (new_buffer.h:654-658). -/
def HeaderBuf.reserveCap {α : Type} (b : HeaderBuf α) (newCapacity : Nat) : HeaderBuf α :=
  if newCapacity > b.capacity then b.reallocate newCapacity else b

/-- Default-constructing `resize(count)` of the header variant
(new_buffer.h:624-636): `count == 0` clears; otherwise `_reserve(count)`,
destroy slots `[count, size)`, default-construct slots `[size, count)`,
write `count` into the header size. -/
def HeaderBuf.resizeDefault {α : Type} [Inhabited α] (b : HeaderBuf α) (count : Nat) :
    HeaderBuf α :=
  if count = 0 then b.clear
  else
    match (b.reserveCap count).alloc with
    | none => b.reserveCap count
    | some (s, c, st) =>
        let st1 := destroySlots st count (s - count)
        let st2 := constructSlots st1 s (count - s) default
        ⟨some (count, c, st2)⟩

/-- Public `reserve(count)` of the header variant (new_buffer.h:841-845):
`if(count > size()) resize(count);` — an enlarge-only resize. -/
def HeaderBuf.reserveOp {α : Type} [Inhabited α] (b : HeaderBuf α) (count : Nat) : HeaderBuf α :=
  if count > b.size then b.resizeDefault count else b

/-- Copy assignment of the header variant (new_buffer.h:568-579), with
`aliased` modelling `this == &other`: when aliased the body is skipped;
otherwise `clear()`, then for a non-empty source reallocate to its size,
copy the elements and write the size into the header. -/
def HeaderBuf.copyAssign {α : Type} (dst src : HeaderBuf α) (aliased : Bool) : HeaderBuf α :=
  if aliased then dst
  else
    let d1 := dst.clear
    if src.size > 0 then
      match (d1.reallocate src.size).alloc with
      | none => d1.reallocate src.size
      | some (_, c, st) =>
          ⟨some (src.size, c,
            (match src.alloc with
             | none => []
             | some (_, _, sst) => sst.take src.size) ++ st.drop src.size)⟩
    else d1

/-! ### Ordering and equality combinators (new_buffer.h:1498-1538)

The operators are generic over any two variants and touch the buffers only
through `cbegin()/cend()`, i.e. through the live element sequence, so they
are modelled on `contents`. -/

/-- The algorithm of `std::lexicographical_compare(f1, l1, f2, l2, comp)`:
walk both ranges in lockstep; at each position return `true` when
`comp a b`, `false` when `comp b a`; if a range runs out first, the first
range being exhausted while the second is not yields `true`, anything
else `false`. -/
def lexicographicalCompare {α : Type} (comp : α → α → Bool) : List α → List α → Bool
  | _, [] => false
  | [], _ :: _ => true
  | a :: as, b :: bs =>
      if comp a b then true
      else if comp b a then false
      else lexicographicalCompare comp as bs

/-- The `operator==` combinator (new_buffer.h:1498-1513): sizes must be
equal, then the elements are compared pairwise in iteration order. -/
def bufEq (a b : SplitBuf Nat) : Bool :=
  if a.msize ≠ b.msize then false
  else (a.contents.zip b.contents).all fun p => p.1 = p.2

/-- The `operator<` combinator (new_buffer.h:1520-1523):
`std::lexicographical_compare` with the predicate `lhs < rhs`. -/
def bufLt (a b : SplitBuf Nat) : Bool :=
  lexicographicalCompare (fun x y => decide (x < y)) a.contents b.contents

/-- The `operator<=` combinator (new_buffer.h:1525-1528):
`std::lexicographical_compare` with the predicate `lhs <= rhs`. -/
def bufLe (a b : SplitBuf Nat) : Bool :=
  lexicographicalCompare (fun x y => decide (x ≤ y)) a.contents b.contents

/-- The `operator>` combinator (new_buffer.h:1530-1533):
`std::lexicographical_compare` with the predicate `lhs > rhs`. -/
def bufGt (a b : SplitBuf Nat) : Bool :=
  lexicographicalCompare (fun x y => decide (x > y)) a.contents b.contents

/-- The `operator>=` combinator (new_buffer.h:1535-1538):
`std::lexicographical_compare` with the predicate `lhs >= rhs`. -/
def bufGe (a b : SplitBuf Nat) : Bool :=
  lexicographicalCompare (fun x y => decide (x ≥ y)) a.contents b.contents

/-! ### Concrete buffers used by the end-to-end scenarios -/

/-- The scenario-A buffer after pushing `[1,2,3,4]` into an empty
V-inline(4) buffer. -/
def scenA4 : InlineBuf Nat :=
  ((((emptyInline Nat 4).pushBack 1).pushBack 2).pushBack 3).pushBack 4

/-- The scenario-A buffer after additionally pushing `5`. -/
def scenA5 : InlineBuf Nat :=
  scenA4.pushBack 5

/-- Well-formedness of a split buffer: the store is the element sequence
`l` as live slots followed by raw slots filling the capacity, and the
size/capacity fields agree with it. -/
def SplitBuf.wf {α : Type} (b : SplitBuf α) : Prop :=
  ∃ l : List α, l.length = b.msize ∧ b.msize ≤ b.mcapacity ∧
    b.store = l.map some ++ List.replicate (b.mcapacity - b.msize) none

/-- Well-formedness of a header buffer: either unallocated, or the slots
are the element sequence followed by raw filler and `size ≤ capacity`. -/
def HeaderBuf.wf {α : Type} (b : HeaderBuf α) : Prop :=
  b.alloc = none ∨
    ∃ l : List α, ∃ c : Nat, l.length ≤ c ∧
      b.alloc = some (l.length, c, l.map some ++ List.replicate (c - l.length) none)

/-- Well-formedness of an inline buffer with inline size `N`: the store is
the element sequence followed by raw filler; on the heap the store has
`m_capacity` slots, inline it has the `N` inline slots and
`m_capacity = N`. -/
def InlineBuf.wf {α : Type} (N : Nat) (b : InlineBuf α) : Prop :=
  ∃ l : List α, l.length = b.msize ∧ b.msize ≤ b.mcapacity ∧
    b.store = l.map some ++ List.replicate (b.mcapacity - b.msize) none ∧
    (b.onHeap = false → b.mcapacity = N)

/-! ### Auxiliary buffers for concrete evaluations -/

/-- A fresh inline(4) buffer holding the single element 9. -/
def inl9 : InlineBuf Nat :=
  (emptyInline Nat 4).pushBack 9

/-- A fresh inline(4) buffer holding 1. -/
def inl1 : InlineBuf Nat :=
  (emptyInline Nat 4).pushBack 1

/-- A fresh inline(4) buffer holding [2, 3]. -/
def inl23 : InlineBuf Nat :=
  ((emptyInline Nat 4).pushBack 2).pushBack 3

/-- A split buffer holding the single element 7, built by push-back. -/
def popExSplit : SplitBuf Nat :=
  (emptySplit Nat).pushBack 7

/-- An inline(2) buffer holding the single element 7. -/
def popExInline : InlineBuf Nat :=
  (emptyInline Nat 2).pushBack 7

/-- Push-back of the header variant (new_buffer.h:721-728): grow via
`next_capacity` if full, placement-construct at slot `size()`, increment
the header size.  (After `reallocate` the pointer is never null; the
`none` fallback is unreachable.) -/
def HeaderBuf.pushBack {α : Type} (b : HeaderBuf α) (v : α) : HeaderBuf α :=
  let b1 := if b.size ≥ b.capacity then b.reallocate (nextCapacityHeader b.capacity) else b
  match b1.alloc with
  | none => b1
  | some (s, c, st) => ⟨some (s + 1, c, st.set s (some v))⟩

/-- A header buffer holding the single element 7, built by push-back. -/
def popExHeader : HeaderBuf Nat :=
  (emptyHeader Nat).pushBack 7

/-! ## Claims -/

/-- C1: the claim states that a moved-from buffer has `size() == 0`, and
for the inline variant is left in inline storage with `capacity() == N`.
The source violates this: moving from a heap-stored V-inline(4) buffer
holding [1,2,3,4,5] (capacity 6) leaves the source with `m_size == 4`
(the move constructor assigns `other.m_size = 0` and then immediately
overwrites it with `other.m_size = initial_size` — a dead store; the
matching assignment to `m_capacity` is missing) and `m_capacity == 6`
while pointing at the 4 raw inline slots.  The destination itself is
correct. -/
theorem claim1_move_ctor_source_corrupt :
    (InlineBuf.moveCtorFrom 4 scenA5).2.msize = 4 ∧
    ¬((InlineBuf.moveCtorFrom 4 scenA5).2.msize = 0) ∧
    (InlineBuf.moveCtorFrom 4 scenA5).2.mcapacity = 6 ∧
    ¬((InlineBuf.moveCtorFrom 4 scenA5).2.mcapacity = 4) ∧
    (InlineBuf.moveCtorFrom 4 scenA5).2.onHeap = false ∧
    (InlineBuf.moveCtorFrom 4 scenA5).2.store = List.replicate 4 none ∧
    (InlineBuf.moveCtorFrom 4 scenA5).1.contents = [1, 2, 3, 4, 5] := by
  decide

/-- C2 counterexample: the claim (and spec scenario A) state that pushing
a fifth element into the full inline(4) buffer grows the capacity to
`next_capacity(4) = 7`.  The source computes `(3*4 + 1) / 2 = 6`, and the
buffer after the fifth push indeed has capacity 6, not 7. -/
theorem claim2_capacity_not_seven :
    nextCapacityInline 4 = 6 ∧ ¬(nextCapacityInline 4 = 7) ∧
    scenA5.mcapacity = 6 ∧ ¬(scenA5.mcapacity = 7) := by
  decide

/-- C2 amended: with `next_capacity(4) = 6` in place of 7, scenario A
holds: pushing [1,2,3,4] leaves the buffer inline with size 4 and
capacity 4; pushing 5 promotes it to the heap, the capacity becomes
`next_capacity(4) = 6`, and the contents are [1,2,3,4,5] in order. -/
theorem claim2_amended_scenario_a :
    scenA4.onHeap = false ∧ scenA4.msize = 4 ∧ scenA4.mcapacity = 4 ∧
    scenA4.contents = [1, 2, 3, 4] ∧
    scenA5.onHeap = true ∧ scenA5.msize = 5 ∧
    scenA5.mcapacity = nextCapacityInline 4 ∧ nextCapacityInline 4 = 6 ∧
    scenA5.contents = [1, 2, 3, 4, 5] := by
  decide

/-- C3: the growth policy takes 0 to 2, 2 to 3, 3 to 5 and 10 to 15; all
four variants define the same function, which agrees with the spec
formula `floor((3*current + 1)/2)` (and `2` at zero); and whenever a
push-back finds the buffer full, the new capacity is `next_capacity` of
the old capacity (shown for the inline and split variants, whose
reallocation installs the requested capacity verbatim). -/
theorem claim3_growth_policy :
    (nextCapacityInline 0 = 2 ∧ nextCapacityInline 2 = 3 ∧
     nextCapacityInline 3 = 5 ∧ nextCapacityInline 10 = 15) ∧
    (∀ c : Nat, nextCapacityHeader c = nextCapacityInline c ∧
       nextCapacitySplit c = nextCapacityInline c ∧
       nextCapacitySplitActual c = nextCapacityInline c ∧
       nextCapacitySpec c = nextCapacityInline c) ∧
    (∀ (α : Type) (b : InlineBuf α) (v : α), b.msize ≥ b.mcapacity →
       (b.pushBack v).mcapacity = nextCapacityInline b.mcapacity) ∧
    (∀ (α : Type) (b : SplitBuf α) (v : α), b.msize ≥ b.mcapacity →
       (b.pushBack v).mcapacity = nextCapacitySplit b.mcapacity) := by
  refine ⟨by decide, fun c => ⟨rfl, rfl, rfl, rfl⟩, ?_, ?_⟩
  · intro α b v h
    simp [InlineBuf.pushBack, InlineBuf.reallocate, if_pos h]
  · intro α b v h
    simp [SplitBuf.pushBack, SplitBuf.reallocate, if_pos h]

/-- C3 witness: the full-buffer push-back conjuncts applied at concrete
buffers (`scenA4` is full at size 4 = capacity, the empty split buffer is
full at 0 = 0). -/
theorem claim3_growth_policy_witness :
    (scenA4.pushBack 5).mcapacity = nextCapacityInline scenA4.mcapacity ∧
    ((emptySplit Nat).pushBack 1).mcapacity = nextCapacitySplit (emptySplit Nat).mcapacity :=
  ⟨claim3_growth_policy.2.2.1 Nat scenA4 5 (by decide),
   claim3_growth_policy.2.2.2 Nat (emptySplit Nat) 1 (by decide)⟩

/-- C4: the claim states that `pop_back` destroys exactly the last live
element, at index `size-1`.  The source of every variant runs
`end()->~value_type(); --m_size;`, invoking the destructor on the slot at
index `size()` — one past the last live element.  On a one-element buffer
(size 1) the destructor is invoked on raw slot 1, the live element in
slot 0 is never destroyed, and after the call it still sits in the region
`[size, capacity)` that the invariant requires to be raw. -/
theorem claim4_pop_back_destroys_wrong_slot :
    (popExSplit.msize = 1 ∧ popExSplit.popBackDestroyIndex = 1 ∧
     ¬(popExSplit.popBackDestroyIndex = popExSplit.msize - 1) ∧
     popExSplit.popBack.msize = 0 ∧ popExSplit.popBack.store = [some 7, none]) ∧
    (popExInline.msize = 1 ∧ popExInline.popBackDestroyIndex = 1 ∧
     ¬(popExInline.popBackDestroyIndex = popExInline.msize - 1) ∧
     popExInline.popBack.msize = 0 ∧ popExInline.popBack.store = [some 7, none]) ∧
    (popExHeader.size = 1 ∧ popExHeader.popBackDestroyIndex = 1 ∧
     ¬(popExHeader.popBackDestroyIndex = popExHeader.size - 1) ∧
     popExHeader.popBack.alloc = some (0, 2, [some 7, none])) := by
  decide

/-- C5: the claim states `capacity() == N` whenever a V-inline(N) buffer
uses inline storage, in particular after `shrink_to_fit` moves elements
back inline.  The source violates this: growing an inline(4) buffer to
the heap (capacity 6), clearing it and calling `shrink_to_fit` moves the
storage back to the inline slots but leaves `m_capacity == 6`
(`shrink_to_fit` never resets `m_capacity` in that branch) — contradicting
the source's own assertions `SASSERT(lhs.m_capacity == initial_size)` for
inline-storage buffers in `swap` (new_buffer.h:291-292). -/
theorem claim5_shrink_to_fit_keeps_heap_capacity :
    scenA5.onHeap = true ∧ scenA5.mcapacity = 6 ∧
    (scenA5.clear.shrinkToFit 4).onHeap = false ∧
    (scenA5.clear.shrinkToFit 4).mcapacity = 6 ∧
    ¬((scenA5.clear.shrinkToFit 4).mcapacity = 4) ∧
    (scenA5.clear.shrinkToFit 4).store.length = 4 := by
  decide

/-- C6: the claim states that `swap` exchanges the two element sequences
in all three storage configurations.  The heap/heap and inline/inline
branches are correct (the latter shown on [1] and [2,3]), but the mixed
branch is broken: swapping a heap-stored [1,2,3,4,5] (capacity 6) with an
inline [9] leaves the sizes unexchanged (`lhs.m_size` stays 5 with only
one live element in its inline storage, `rhs.m_size` stays 1 while owning
the five-element heap block), and `rhs.m_capacity = rhs.m_capacity;` is a
self-assignment, so `rhs` claims capacity 4 for the 6-slot heap block. -/
theorem claim6_swap_mixed_branch_broken :
    ((InlineBuf.swapBufs 4 scenA5 inl9).1.msize = 5 ∧
     ¬((InlineBuf.swapBufs 4 scenA5 inl9).1.msize = 1) ∧
     (InlineBuf.swapBufs 4 scenA5 inl9).1.store = [some 9, none, none, none] ∧
     (InlineBuf.swapBufs 4 scenA5 inl9).2.msize = 1 ∧
     ¬((InlineBuf.swapBufs 4 scenA5 inl9).2.msize = 5) ∧
     (InlineBuf.swapBufs 4 scenA5 inl9).2.contents = [1] ∧
     ¬((InlineBuf.swapBufs 4 scenA5 inl9).2.contents = [1, 2, 3, 4, 5]) ∧
     (InlineBuf.swapBufs 4 scenA5 inl9).2.mcapacity = 4 ∧
     (InlineBuf.swapBufs 4 scenA5 inl9).2.store.length = 6) ∧
    ((InlineBuf.swapBufs 4 inl1 inl23).1.contents = [2, 3] ∧
     (InlineBuf.swapBufs 4 inl1 inl23).1.msize = 2 ∧
     (InlineBuf.swapBufs 4 inl1 inl23).2.contents = [1] ∧
     (InlineBuf.swapBufs 4 inl1 inl23).2.msize = 1 ∧
     (InlineBuf.swapBufs 4 inl1 inl23).2.onHeap = true) := by
  decide

/-- C8: the claim states that `<`, `<=`, `>`, `>=` all realize the same
lexicographic order, with `a <= b` exactly when `a < b` or `a == b`.  The
source feeds the predicates `<=`, `>` and `>=` directly to
`std::lexicographical_compare`, which is only correct for a strict
less-than: `[2,3] <= [2,1]` evaluates to `true` (the comparison returns
`true` at the first tie) although `[2,3] < [2,1]` and `[2,3] == [2,1]`
are both false; `[1,2] > [1,2,3]` and `[2,1] >= [2,3]` also evaluate to
`true`.  `operator<` and `operator==` are correct, so scenario C
([1,2,3] < [1,2,3,4], not equal) does hold. -/
theorem claim8_comparison_operators_inconsistent :
    bufLe (SplitBuf.fromElems [2, 3]) (SplitBuf.fromElems [2, 1]) = true ∧
    bufLt (SplitBuf.fromElems [2, 3]) (SplitBuf.fromElems [2, 1]) = false ∧
    bufEq (SplitBuf.fromElems [2, 3]) (SplitBuf.fromElems [2, 1]) = false ∧
    bufGt (SplitBuf.fromElems [1, 2]) (SplitBuf.fromElems [1, 2, 3]) = true ∧
    bufGe (SplitBuf.fromElems [2, 1]) (SplitBuf.fromElems [2, 3]) = true ∧
    bufLt (SplitBuf.fromElems [1, 2, 3]) (SplitBuf.fromElems [1, 2, 3, 4]) = true ∧
    bufEq (SplitBuf.fromElems [1, 2, 3]) (SplitBuf.fromElems [1, 2, 3, 4]) = false := by
  decide

/-- C10: copy-assigning a buffer to itself is a no-op in every variant:
the source guards the whole assignment body with `if(this != &other)`, so
in the aliased case nothing is destroyed, reallocated or copied, and
size, capacity and all stored elements are unchanged. -/
theorem claim10_self_copy_assign_noop :
    (∀ (α : Type) (b : InlineBuf α), b.copyAssign b true = b ∧
       (b.copyAssign b true).contents = b.contents) ∧
    (∀ (α : Type) (b : SplitBuf α), b.copyAssign b true = b ∧
       (b.copyAssign b true).contents = b.contents) ∧
    (∀ (α : Type) (b : HeaderBuf α), b.copyAssign b true = b ∧
       (b.copyAssign b true).contents = b.contents) :=
  ⟨fun _ _ => ⟨rfl, rfl⟩, fun _ _ => ⟨rfl, rfl⟩, fun _ _ => ⟨rfl, rfl⟩⟩

/-! ### Helper lemmas about the slot-level primitives -/

theorem set_append_length {β : Type} (pre : List β) (x y : β) (suf : List β) :
    (pre ++ y :: suf).set pre.length x = pre ++ x :: suf := by
  induction pre with
  | nil => rfl
  | cons a l ih =>
      show a :: ((l ++ y :: suf).set l.length x) = a :: (l ++ x :: suf)
      rw [ih]

theorem getD_append_length {β : Type} (pre : List β) (y : β) (suf : List β) (d : β) :
    (pre ++ y :: suf).getD pre.length d = y := by
  induction pre with
  | nil => rfl
  | cons a l ih =>
      show (l ++ y :: suf).getD l.length d = y
      exact ih

theorem destroySlots_zero {α : Type} (store : List (Option α)) (i : Nat) :
    destroySlots store i 0 = store := rfl

theorem constructSlots_spec {α : Type} (v : α) (k : Nat) :
    ∀ (pre suf : List (Option α)), k ≤ suf.length →
      constructSlots (pre ++ suf) pre.length k v =
        pre ++ (List.replicate k (some v) ++ suf.drop k) := by
  induction k with
  | zero => intro pre suf _; simp [constructSlots]
  | succ k ih =>
      intro pre suf h
      match suf, h with
      | s :: suf2, h =>
        have h2 : k ≤ suf2.length := Nat.le_of_succ_le_succ h
        have step : constructSlots (pre ++ s :: suf2) pre.length (k + 1) v
            = constructSlots ((pre ++ [some v]) ++ suf2) ((pre ++ [some v]).length) k v := by
          show constructSlots ((pre ++ s :: suf2).set pre.length (some v)) (pre.length + 1) k v
              = _
          rw [set_append_length]
          simp
        rw [step, ih (pre ++ [some v]) suf2 h2]
        simp [List.replicate_succ]

theorem moveDown_spec {α : Type} :
    ∀ (d : List α) (pre suf : List (Option α)),
      moveDown (pre ++ (none :: (d.map some ++ suf))) pre.length d.length
        = pre ++ (d.map some ++ (none :: suf)) := by
  intro d
  induction d with
  | nil => intro pre suf; simp [moveDown]
  | cons a d2 ih =>
      intro pre suf
      have hget :
          (pre ++ none :: some a :: (d2.map some ++ suf)).getD (pre.length + 1) none
            = some a := by
        have h1 := getD_append_length (pre ++ [none]) (some a) (d2.map some ++ suf) none
        simpa using h1
      have hset1 :
          (pre ++ none :: some a :: (d2.map some ++ suf)).set pre.length (some a)
            = pre ++ some a :: some a :: (d2.map some ++ suf) :=
        set_append_length pre (some a) none (some a :: (d2.map some ++ suf))
      have hset2 :
          (pre ++ some a :: some a :: (d2.map some ++ suf)).set (pre.length + 1) none
            = pre ++ some a :: none :: (d2.map some ++ suf) := by
        have h3 := set_append_length (pre ++ [some a]) (none : Option α) (some a)
          (d2.map some ++ suf)
        simp only [List.append_assoc, List.singleton_append, List.length_append,
          List.length_cons, List.length_nil, List.cons_append] at h3
        exact h3
      have ih2 :
          moveDown (pre ++ some a :: none :: (d2.map some ++ suf)) (pre.length + 1) d2.length
            = pre ++ some a :: (d2.map some ++ none :: suf) := by
        have h4 := ih (pre ++ [some a]) suf
        simpa using h4
      simp only [List.map_cons, List.length_cons, List.cons_append]
      show moveDown
          (((pre ++ none :: some a :: (d2.map some ++ suf)).set pre.length
              ((pre ++ none :: some a :: (d2.map some ++ suf)).getD (pre.length + 1) none)).set
            (pre.length + 1) none)
          (pre.length + 1) d2.length
        = pre ++ some a :: (d2.map some ++ none :: suf)
      rw [hget, hset1, hset2, ih2]

theorem contents_of_canonical {α : Type} (l : List α) (rest : List (Option α)) (k : Nat)
    (hk : l.length = k) :
    ((l.map some ++ rest).take k).filterMap id = l := by
  subst hk
  rw [List.take_left' (by simp)]
  simp

theorem splitBuf_wf_elim {α : Type} {b : SplitBuf α} (h : b.wf) :
    b.contents.length = b.msize ∧ b.msize ≤ b.mcapacity ∧
      b.store = b.contents.map some ++ List.replicate (b.mcapacity - b.msize) none := by
  obtain ⟨l, hlen, hle, hst⟩ := h
  have hc : b.contents = l := by
    show ((b.store.take b.msize).filterMap id) = l
    rw [hst, ← hlen]
    exact contents_of_canonical l _ l.length rfl
  rw [hc]
  exact ⟨hlen, hle, hst⟩

theorem SplitBuf.reserveCap_spec {α : Type} {b : SplitBuf α} (h : b.wf) (n : Nat) :
    (b.reserveCap n).msize = b.msize ∧
    (b.reserveCap n).mcapacity = max b.mcapacity n ∧
    (b.reserveCap n).store
      = b.contents.map some ++ List.replicate (max b.mcapacity n - b.msize) none := by
  obtain ⟨hlen, _, hst⟩ := splitBuf_wf_elim h
  unfold SplitBuf.reserveCap
  by_cases hgt : n > b.mcapacity
  · rw [if_pos hgt]
    unfold SplitBuf.reallocate
    refine ⟨rfl, ?_, ?_⟩
    · simp [Nat.max_eq_right (Nat.le_of_lt hgt)]
    · rw [hst, List.take_left' (by simp [hlen]), Nat.max_eq_right (Nat.le_of_lt hgt)]
  · rw [if_neg hgt]
    refine ⟨rfl, ?_, ?_⟩
    · simp [Nat.max_eq_left (Nat.le_of_not_lt hgt)]
    · rw [hst, Nat.max_eq_left (Nat.le_of_not_lt hgt)]

theorem splitBuf_resizeDefault_grow {α : Type} [Inhabited α] {b : SplitBuf α} (h : b.wf)
    {n : Nat} (hn : b.msize < n) :
    (b.resizeDefault n).msize = n ∧
    (b.resizeDefault n).mcapacity = max b.mcapacity n ∧
    (b.resizeDefault n).contents = b.contents ++ List.replicate (n - b.msize) default ∧
    (b.resizeDefault n).wf := by
  obtain ⟨hclen, hle, _⟩ := splitBuf_wf_elim h
  obtain ⟨h1, h2, h3⟩ := SplitBuf.reserveCap_spec h n
  have hnmax : n ≤ max b.mcapacity n := Nat.le_max_right _ _
  have hst2 :
      constructSlots
          (destroySlots (b.reserveCap n).store n ((b.reserveCap n).msize - n))
          (b.reserveCap n).msize (n - (b.reserveCap n).msize) default
        = (b.contents ++ List.replicate (n - b.msize) default).map some
            ++ List.replicate (max b.mcapacity n - n) none := by
    rw [h1, show b.msize - n = 0 by omega, destroySlots_zero, h3]
    have hk : n - b.msize ≤ (List.replicate (max b.mcapacity n - b.msize) (none : Option α)).length := by
      simp
      omega
    have hpre : b.contents.map some
        = (b.contents.map some : List (Option α)) := rfl
    have := constructSlots_spec (default : α) (n - b.msize) (b.contents.map some)
      (List.replicate (max b.mcapacity n - b.msize) none) hk
    rw [show (b.contents.map some : List (Option α)).length = b.msize by simp [hclen]] at this
    rw [this, List.drop_replicate]
    rw [show max b.mcapacity n - b.msize - (n - b.msize) = max b.mcapacity n - n by omega]
    simp [List.map_replicate]
  refine ⟨rfl, h2, ?_, ?_⟩
  · show ((constructSlots
        (destroySlots (b.reserveCap n).store n ((b.reserveCap n).msize - n))
        (b.reserveCap n).msize (n - (b.reserveCap n).msize) default).take n).filterMap id
      = b.contents ++ List.replicate (n - b.msize) default
    rw [hst2]
    exact contents_of_canonical _ _ n (by simp; omega)
  · refine ⟨b.contents ++ List.replicate (n - b.msize) default, ?_, ?_, ?_⟩
    · show (b.contents ++ List.replicate (n - b.msize) default).length = n
      simp [hclen]
      omega
    · show n ≤ (b.reserveCap n).mcapacity
      rw [h2]
      exact hnmax
    · show constructSlots
          (destroySlots (b.reserveCap n).store n ((b.reserveCap n).msize - n))
          (b.reserveCap n).msize (n - (b.reserveCap n).msize) default
        = _ ++ List.replicate ((b.reserveCap n).mcapacity - n) none
      rw [hst2, h2]

theorem inlineBuf_wf_elim {α : Type} {N : Nat} {b : InlineBuf α} (h : b.wf N) :
    b.contents.length = b.msize ∧ b.msize ≤ b.mcapacity ∧
      b.store = b.contents.map some ++ List.replicate (b.mcapacity - b.msize) none := by
  obtain ⟨l, hlen, hle, hst, _⟩ := h
  have hc : b.contents = l := by
    show ((b.store.take b.msize).filterMap id) = l
    rw [hst, ← hlen]
    exact contents_of_canonical l _ l.length rfl
  rw [hc]
  exact ⟨hlen, hle, hst⟩

theorem InlineBuf.reserveOp_spec {α : Type} {N : Nat} {b : InlineBuf α} (h : b.wf N)
    (n : Nat) :
    (b.reserveOp n).msize = b.msize ∧
    (b.reserveOp n).mcapacity = max b.mcapacity n ∧
    (b.reserveOp n).contents = b.contents := by
  obtain ⟨hclen, _, hst⟩ := inlineBuf_wf_elim h
  have htake : b.store.take b.msize = b.contents.map some := by
    rw [hst]
    exact List.take_left' (by simp [hclen])
  unfold InlineBuf.reserveOp
  by_cases hlt : b.mcapacity < n
  · rw [if_pos hlt]
    refine ⟨rfl, ?_, ?_⟩
    · show n = max b.mcapacity n
      rw [Nat.max_eq_right (Nat.le_of_lt hlt)]
    show ((b.store.take b.msize ++ List.replicate (n - b.msize) none).take b.msize).filterMap id
        = b.contents
    rw [htake]
    exact contents_of_canonical _ _ _ hclen
  · rw [if_neg hlt]
    exact ⟨rfl, (Nat.max_eq_left (Nat.le_of_not_lt hlt)).symm, rfl⟩

theorem headerBuf_resizeDefault_grow {α : Type} [Inhabited α] {b : HeaderBuf α} (h : b.wf)
    {n : Nat} (hn : b.size < n) :
    (b.resizeDefault n).size = n ∧
    (b.resizeDefault n).capacity = max b.capacity n ∧
    (b.resizeDefault n).contents = b.contents ++ List.replicate (n - b.size) default := by
  obtain ⟨al⟩ := b
  rcases h with hnull | ⟨l, c, hlc, halloc⟩
  · have hal : al = none := hnull
    subst hal
    have hn0 : 0 < n := hn
    have hne : ¬(n = 0) := by omega
    have hrc : HeaderBuf.reserveCap (⟨none⟩ : HeaderBuf α) n
        = (⟨some (0, n, List.replicate n none)⟩ : HeaderBuf α) := by
      unfold HeaderBuf.reserveCap
      rw [if_pos (show n > HeaderBuf.capacity (⟨none⟩ : HeaderBuf α) from hn0)]
      rfl
    have hcs : constructSlots (List.replicate n (none : Option α)) 0 n default
        = List.replicate n (some (default : α)) := by
      have h5 := constructSlots_spec (default : α) n ([] : List (Option α))
        (List.replicate n none) (by simp)
      simpa using h5
    have hres : HeaderBuf.resizeDefault (⟨none⟩ : HeaderBuf α) n
        = (⟨some (n, n, List.replicate n (some (default : α)))⟩ : HeaderBuf α) := by
      unfold HeaderBuf.resizeDefault
      rw [if_neg hne, hrc]
      show (⟨some (n, n,
          constructSlots (destroySlots (List.replicate n none) n (0 - n)) 0 (n - 0)
            default)⟩ : HeaderBuf α) = _
      rw [Nat.zero_sub, destroySlots_zero, Nat.sub_zero, hcs]
    rw [hres]
    refine ⟨rfl, ?_, ?_⟩
    · show n = max (HeaderBuf.capacity (⟨none⟩ : HeaderBuf α)) n
      simp [HeaderBuf.capacity]
    · show ((List.replicate n (some (default : α))).take n).filterMap id
        = HeaderBuf.contents (⟨none⟩ : HeaderBuf α) ++ List.replicate (n - 0) default
      rw [show (List.replicate n (some (default : α))).take n
            = List.replicate n (some (default : α)) by simp]
      rw [show List.replicate n (some (default : α))
            = (List.replicate n (default : α)).map some by simp]
      simp [HeaderBuf.contents]
  · have hal : al = some (l.length, c, l.map some ++ List.replicate (c - l.length) none) :=
      halloc
    subst hal
    have hsz : HeaderBuf.size
        (⟨some (l.length, c, l.map some ++ List.replicate (c - l.length) none)⟩ :
          HeaderBuf α) = l.length := rfl
    rw [hsz] at hn
    have hne : ¬(n = 0) := by omega
    have hrc : HeaderBuf.reserveCap
        (⟨some (l.length, c, l.map some ++ List.replicate (c - l.length) none)⟩ :
          HeaderBuf α) n
        = (⟨some (l.length, max c n,
            l.map some ++ List.replicate (max c n - l.length) none)⟩ : HeaderBuf α) := by
      unfold HeaderBuf.reserveCap
      rw [show HeaderBuf.capacity
            (⟨some (l.length, c, l.map some ++ List.replicate (c - l.length) none)⟩ :
              HeaderBuf α) = c from rfl]
      by_cases hgt : n > c
      · rw [if_pos hgt]
        have hre : HeaderBuf.reallocate
            (⟨some (l.length, c, l.map some ++ List.replicate (c - l.length) none)⟩ :
              HeaderBuf α) n
            = (⟨some (l.length, n,
                (l.map some ++ List.replicate (c - l.length) none).take l.length ++
                  List.replicate (n - l.length) none)⟩ : HeaderBuf α) := rfl
        rw [hre, List.take_left' (by simp), Nat.max_eq_right (Nat.le_of_lt hgt)]
      · rw [if_neg hgt, Nat.max_eq_left (Nat.le_of_not_lt hgt)]
    have hcs : constructSlots
          (l.map some ++ List.replicate (max c n - l.length) (none : Option α))
          l.length (n - l.length) default
        = (l ++ List.replicate (n - l.length) default).map some
            ++ List.replicate (max c n - n) none := by
      have hk : n - l.length
          ≤ (List.replicate (max c n - l.length) (none : Option α)).length := by
        simp
        omega
      have h5 := constructSlots_spec (default : α) (n - l.length) (l.map some)
        (List.replicate (max c n - l.length) none) hk
      rw [show (l.map some : List (Option α)).length = l.length by simp] at h5
      rw [h5, List.drop_replicate]
      rw [show max c n - l.length - (n - l.length) = max c n - n by omega]
      simp [List.map_replicate]
    have hres : HeaderBuf.resizeDefault
        (⟨some (l.length, c, l.map some ++ List.replicate (c - l.length) none)⟩ :
          HeaderBuf α) n
        = (⟨some (n, max c n,
            (l ++ List.replicate (n - l.length) default).map some
              ++ List.replicate (max c n - n) none)⟩ : HeaderBuf α) := by
      unfold HeaderBuf.resizeDefault
      rw [if_neg hne, hrc]
      show (⟨some (n, max c n,
          constructSlots
            (destroySlots (l.map some ++ List.replicate (max c n - l.length) none) n
              (l.length - n))
            l.length (n - l.length) default)⟩ : HeaderBuf α) = _
      rw [show l.length - n = 0 by omega, destroySlots_zero, hcs]
    rw [hres]
    refine ⟨rfl, rfl, ?_⟩
    have hc1 : (⟨some (n, max c n,
        (l ++ List.replicate (n - l.length) default).map some
          ++ List.replicate (max c n - n) none)⟩ : HeaderBuf α).contents
        = (((l ++ List.replicate (n - l.length) default).map some
            ++ List.replicate (max c n - n) none).take n).filterMap id := rfl
    have hc2 : (⟨some (l.length, c,
        l.map some ++ List.replicate (c - l.length) none)⟩ : HeaderBuf α).contents
        = ((l.map some ++ List.replicate (c - l.length) none).take l.length).filterMap id :=
      rfl
    rw [hc1, hc2, hsz]
    rw [contents_of_canonical (l ++ List.replicate (n - l.length) default)
          (List.replicate (max c n - n) none) n (by simp; omega)]
    rw [contents_of_canonical l (List.replicate (c - l.length) none) l.length rfl]

/-- C7 counterexample: the claim states that for every variant
`b.reserve(n)` leaves `b.size()` and the stored elements unchanged.  For
the V-split variant (and identically V-header), `reserve(n)` is
`if(count > size()) resize(count);`: reserving 3 slots on an empty buffer
sets its size to 3 and default-constructs three elements. -/
theorem claim7_reserve_changes_size :
    ((emptySplit Nat).reserveOp 3).msize = 3 ∧
    ¬(((emptySplit Nat).reserveOp 3).msize = (emptySplit Nat).msize) ∧
    ((emptySplit Nat).reserveOp 3).contents = [0, 0, 0] ∧
    ((emptyHeader Nat).reserveOp 3).size = 3 ∧
    ¬(((emptyHeader Nat).reserveOp 3).size = (emptyHeader Nat).size) := by
  decide

/-- C7 amended: reserve never shrinks the capacity and preserves the
existing elements, but its effect on the size differs by variant. For the
V-inline variant, `reserve(n)` leaves size and elements unchanged and
sets the capacity to `max(capacity, n)`.  For the V-header and V-split
variants, `reserve(n)` is an enlarging resize: when `n <= size` it is a
no-op, and when `n > size` it sets the size to `n`, default-constructing
the new slots after the preserved elements, with the capacity becoming
`max(capacity, n)`. -/
theorem claim7_amended_reserve_semantics :
    (∀ (α : Type) (N : Nat) (b : InlineBuf α) (n : Nat), b.wf N →
       (b.reserveOp n).msize = b.msize ∧
       (b.reserveOp n).mcapacity = max b.mcapacity n ∧
       (b.reserveOp n).contents = b.contents) ∧
    (∀ (α : Type) [Inhabited α] (b : SplitBuf α) (n : Nat), b.wf →
       (n ≤ b.msize → b.reserveOp n = b) ∧
       (b.msize < n →
         (b.reserveOp n).msize = n ∧
         (b.reserveOp n).mcapacity = max b.mcapacity n ∧
         (b.reserveOp n).contents = b.contents ++ List.replicate (n - b.msize) default)) ∧
    (∀ (α : Type) [Inhabited α] (b : HeaderBuf α) (n : Nat), b.wf →
       (n ≤ b.size → b.reserveOp n = b) ∧
       (b.size < n →
         (b.reserveOp n).size = n ∧
         (b.reserveOp n).capacity = max b.capacity n ∧
         (b.reserveOp n).contents = b.contents ++ List.replicate (n - b.size) default)) := by
  refine ⟨fun α N b n h => InlineBuf.reserveOp_spec h n, ?_, ?_⟩
  · intro α inst b n h
    constructor
    · intro hle
      unfold SplitBuf.reserveOp
      rw [if_neg (by omega)]
    · intro hlt
      have hd := splitBuf_resizeDefault_grow h hlt
      unfold SplitBuf.reserveOp
      rw [if_pos hlt]
      exact ⟨hd.1, hd.2.1, hd.2.2.1⟩
  · intro α inst b n h
    constructor
    · intro hle
      unfold HeaderBuf.reserveOp
      rw [if_neg (by omega)]
    · intro hlt
      have hd := headerBuf_resizeDefault_grow h hlt
      unfold HeaderBuf.reserveOp
      rw [if_pos hlt]
      exact hd

/-- C7 witness: the amended reserve semantics applied at concrete
buffers — the inline scenario-A buffer reserved to 9 slots, a split
buffer [1,2] reserved to 5 (enlarging resize), and an unallocated header
buffer reserved to 3. -/
theorem claim7_amended_reserve_semantics_witness :
    ((scenA4.reserveOp 9).mcapacity = max scenA4.mcapacity 9 ∧
      (scenA4.reserveOp 9).contents = scenA4.contents) ∧
    ((SplitBuf.fromElems [1, 2] : SplitBuf Nat).reserveOp 5).contents
      = (SplitBuf.fromElems [1, 2] : SplitBuf Nat).contents
          ++ List.replicate (5 - (SplitBuf.fromElems [1, 2] : SplitBuf Nat).msize) default ∧
    ((emptyHeader Nat).reserveOp 3).size = 3 := by
  have h1 := claim7_amended_reserve_semantics.1 Nat 4 scenA4 9
    ⟨[1, 2, 3, 4], by decide, by decide, by decide, by decide⟩
  have h2 := (claim7_amended_reserve_semantics.2.1 Nat (SplitBuf.fromElems [1, 2]) 5
    ⟨[1, 2], by decide, by decide, by decide⟩).2 (by decide)
  have h3 := (claim7_amended_reserve_semantics.2.2 Nat (emptyHeader Nat) 3
    (Or.inl rfl)).2 (by decide)
  exact ⟨⟨h1.2.1, h1.2.2⟩, h2.2.2, h3.1⟩

theorem SplitBuf.eraseAt_spec {α : Type} {b : SplitBuf α} (h : b.wf) {i : Nat}
    (hi : i < b.msize) :
    (b.eraseAt i).msize = b.msize - 1 ∧
    (b.eraseAt i).mcapacity = b.mcapacity ∧
    (b.eraseAt i).contents = b.contents.eraseIdx i := by
  obtain ⟨hclen, hle, hst⟩ := splitBuf_wf_elim h
  have hil : i < b.contents.length := by rw [hclen]; exact hi
  have htl : ((b.contents.take i).map some : List (Option α)).length = i := by
    simp [Nat.le_of_lt hil]
  have hsplit : b.contents = b.contents.take i ++ b.contents[i] :: b.contents.drop (i + 1) := by
    conv_lhs => rw [← List.take_append_drop i b.contents]
    rw [List.drop_eq_getElem_cons hil]
  have hstore : b.store
      = (b.contents.take i).map some
          ++ (some b.contents[i]
              :: ((b.contents.drop (i + 1)).map some
                  ++ List.replicate (b.mcapacity - b.msize) none)) := by
    have hst2 : b.store
        = (b.contents.take i ++ b.contents[i] :: b.contents.drop (i + 1)).map some
            ++ List.replicate (b.mcapacity - b.msize) none := by
      rw [hst, ← hsplit]
    rw [hst2]
    simp only [List.map_append, List.map_cons, List.cons_append, List.append_assoc]
  have hset : b.store.set i none
      = (b.contents.take i).map some
          ++ (none
              :: ((b.contents.drop (i + 1)).map some
                  ++ List.replicate (b.mcapacity - b.msize) none)) := by
    have hsa := set_append_length ((b.contents.take i).map some) (none : Option α)
      (some b.contents[i])
      ((b.contents.drop (i + 1)).map some ++ List.replicate (b.mcapacity - b.msize) none)
    rw [htl] at hsa
    rw [hstore]
    exact hsa
  have hmove : moveDown (b.store.set i none) i (b.msize - i - 1)
      = (b.contents.eraseIdx i).map some
          ++ List.replicate (b.mcapacity - b.msize + 1) none := by
    rw [hset]
    have hcount : b.msize - i - 1 = (b.contents.drop (i + 1)).length := by
      simp [hclen]
      omega
    rw [hcount]
    have hmv := moveDown_spec (b.contents.drop (i + 1)) ((b.contents.take i).map some)
      (List.replicate (b.mcapacity - b.msize) none)
    rw [htl] at hmv
    rw [hmv, List.eraseIdx_eq_take_drop_succ]
    simp [List.replicate_succ]
  refine ⟨rfl, rfl, ?_⟩
  show ((moveDown (b.store.set i none) i (b.msize - i - 1)).take (b.msize - 1)).filterMap id
      = b.contents.eraseIdx i
  rw [hmove]
  refine contents_of_canonical _ _ _ ?_
  have hlen2 : (b.contents.eraseIdx i).length = b.contents.length - 1 := by
    rw [List.length_eraseIdx]
    simp [hil]
  omega

theorem findFirstAux_eq_none_iff {α : Type} [DecidableEq α] (v : α) :
    ∀ (l : List α) (k : Nat), findFirstAux v l k = none ↔ ¬(v ∈ l) := by
  intro l
  induction l with
  | nil => intro k; simp [findFirstAux]
  | cons x xs ih =>
      intro k
      by_cases hx : x = v
      · simp [findFirstAux, hx]
      · rw [List.mem_cons]
        simp only [findFirstAux, if_neg hx]
        rw [ih (k + 1)]
        constructor
        · intro hnot hor
          rcases hor with h1 | h2
          · exact hx h1.symm
          · exact hnot h2
        · intro hnot h2
          exact hnot (Or.inr h2)

theorem findFirstAux_spec {α : Type} [DecidableEq α] (v : α) :
    ∀ (l : List α) (k i : Nat), findFirstAux v l k = some i →
      k ≤ i ∧ i - k < l.length ∧ l[i - k]? = some v ∧
        ∀ j, j < i - k → l[j]? ≠ some v := by
  intro l
  induction l with
  | nil => intro k i h; simp [findFirstAux] at h
  | cons x xs ih =>
      intro k i h
      by_cases hx : x = v
      · simp only [findFirstAux, if_pos hx] at h
        injection h with h
        subst h
        refine ⟨Nat.le_refl _, by simp, ?_, ?_⟩
        · rw [Nat.sub_self]
          simp [hx]
        · intro j hj
          rw [Nat.sub_self] at hj
          exact absurd hj (Nat.not_lt_zero j)
      · simp only [findFirstAux, if_neg hx] at h
        obtain ⟨h1, h2, h3, h4⟩ := ih (k + 1) i h
        have heq : i - k = (i - (k + 1)) + 1 := by omega
        refine ⟨by omega, by simp; omega, ?_, ?_⟩
        · rw [heq]
          simpa using h3
        · intro j hj
          rw [heq] at hj
          cases j with
          | zero =>
              show (x :: xs)[0]? ≠ some v
              simp only [List.getElem?_cons_zero]
              intro hh
              exact hx (Option.some.inj hh)
          | succ j2 =>
              show (x :: xs)[j2 + 1]? ≠ some v
              have hj2 : j2 < i - (k + 1) := by omega
              simpa using h4 j2 hj2

/-- C9: for every well-formed buffer and every value `v`, `erase(v)` scans
linearly from the front: when no element equals `v` it returns `end()`
(offset `size()`) with the buffer unchanged; when some element equals `v`
it removes exactly the first occurrence — there is an index `i` holding
`v` with no earlier occurrence such that the call returns offset `i`, the
size drops by one, the capacity is unchanged, and the resulting element
sequence is the old one with position `i` removed (everything after it
shifted down one slot, order preserved). -/
theorem claim9_erase_by_value {α : Type} [DecidableEq α] (b : SplitBuf α) (v : α)
    (h : b.wf) :
    (v ∉ b.contents → b.eraseVal v = (b, b.msize)) ∧
    (v ∈ b.contents → ∃ i : Nat,
       b.contents[i]? = some v ∧ (∀ j, j < i → b.contents[j]? ≠ some v) ∧
       (b.eraseVal v).2 = i ∧
       (b.eraseVal v).1.msize = b.msize - 1 ∧
       (b.eraseVal v).1.mcapacity = b.mcapacity ∧
       (b.eraseVal v).1.contents = b.contents.eraseIdx i) := by
  constructor
  · intro hnot
    unfold SplitBuf.eraseVal
    rw [(findFirstAux_eq_none_iff v b.contents 0).mpr hnot]
  · intro hmem
    cases hfind : findFirstAux v b.contents 0 with
    | none => exact absurd hmem ((findFirstAux_eq_none_iff v b.contents 0).mp hfind)
    | some i =>
        obtain ⟨_, hlt, hget, hmin⟩ := findFirstAux_spec v b.contents 0 i hfind
        rw [Nat.sub_zero] at hlt hget
        have hmin0 : ∀ j, j < i → b.contents[j]? ≠ some v := by
          intro j hj
          exact hmin j (by omega)
        have hi : i < b.msize := by
          rw [← (splitBuf_wf_elim h).1]
          exact hlt
        obtain ⟨e1, e2, e3⟩ := SplitBuf.eraseAt_spec h hi
        refine ⟨i, hget, hmin0, ?_, ?_, ?_, ?_⟩
        · unfold SplitBuf.eraseVal
          rw [hfind]
        · unfold SplitBuf.eraseVal
          rw [hfind]
          exact e1
        · unfold SplitBuf.eraseVal
          rw [hfind]
          exact e2
        · unfold SplitBuf.eraseVal
          rw [hfind]
          exact e3

/-- C9 witness: value-erase applied to the concrete buffer [5,6,5,7]
(erasing 5 removes only the first occurrence, returning offset 0) and to
[5,6,7] for the absent value 9 (no-op returning `end()` = 3). -/
theorem claim9_erase_by_value_witness :
    ((SplitBuf.fromElems [5, 6, 5, 7] : SplitBuf Nat).eraseVal 5).1.contents = [6, 5, 7] ∧
    ((SplitBuf.fromElems [5, 6, 7] : SplitBuf Nat).eraseVal 9)
      = (SplitBuf.fromElems [5, 6, 7], 3) := by
  have hwf1 : (SplitBuf.fromElems [5, 6, 5, 7] : SplitBuf Nat).wf :=
    ⟨[5, 6, 5, 7], by decide, by decide, by decide⟩
  have hwf2 : (SplitBuf.fromElems [5, 6, 7] : SplitBuf Nat).wf :=
    ⟨[5, 6, 7], by decide, by decide, by decide⟩
  constructor
  · obtain ⟨i, hget, hmin, hret, hsz, hcap, hcon⟩ :=
      (claim9_erase_by_value (SplitBuf.fromElems [5, 6, 5, 7]) 5 hwf1).2 (by decide)
    have hi : i = 0 := by
      rw [← hret]
      decide
    rw [hcon, hi]
    decide
  · have hnone :=
      (claim9_erase_by_value (SplitBuf.fromElems [5, 6, 7]) 9 hwf2).1 (by decide)
    rw [hnone]
    decide

end NewBuffer
